import Mathlib

/-!
Verification development for the tapsrs Transport Services core.

The repository's `src/` holds only example and test C code (the FFI demo
`path_monitor_example.c` and `test.c`); the core engine itself is described
by the design document but is not among the shipped sources.  Following the
design document, the core's data model and operations are modelled here as
executable Lean definitions and their contracts are proved as theorems.
-/

namespace Taps

/-! ## Data model: interface snapshots and change events -/

/-- Interface status, mirroring `TransportServicesInterfaceStatus`
(UP / DOWN / UNKNOWN) in the FFI surface. -/
inductive InterfaceStatus where
  | Up
  | Down
  | Unknown
deriving DecidableEq, Repr

/-- Modelled from the spec: `InterfaceSnapshot` — immutable description of one
network interface at a point in time (name, index, addresses, status, kind,
cost class), matching `TransportServicesInterface` in the FFI surface. -/
structure InterfaceSnapshot where
  name : String
  index : Nat
  addresses : List String
  status : InterfaceStatus
  kind : String
  isExpensive : Bool
deriving DecidableEq, Repr

/-- Modelled from the spec: `ChangeEvent` — tagged variant over
Added / Removed / Modified(old,new) / PathChanged(description), matching
`TransportServicesChangeEvent` in the FFI surface. -/
inductive ChangeEvent where
  | Added (iface : InterfaceSnapshot)
  | Removed (iface : InterfaceSnapshot)
  | Modified (old : InterfaceSnapshot) (current : InterfaceSnapshot)
  | PathChanged (description : String)
deriving DecidableEq, Repr

/-! ## Path Monitor diff engine

Modelled from the spec: the watch loop's tick computes the symmetric
difference between the previous and the current snapshot set, keyed by
`index`:
  - present only in the new set → Added
  - present only in the old set → Removed
  - present in both but any field differs → Modified(old,new)
  - an OS-level default-route signal → PathChanged(description)
and delivers the events of one diff in the order Removed, Modified, Added,
PathChanged.  The core implementing this is not among the shipped sources,
so the tick is modelled from the spec's words. -/

/-- Look up the snapshot with OS index `i` in a snapshot set. -/
def findByIndex (l : List InterfaceSnapshot) (i : Nat) : Option InterfaceSnapshot :=
  l.find? (fun s => s.index == i)

/-- Modelled from the spec: one Removed event per index present only in the
old set. -/
def removedEvents : List InterfaceSnapshot → List InterfaceSnapshot → List ChangeEvent
  | [], _ => []
  | s :: rest, cur =>
    if (findByIndex cur s.index).isNone then
      ChangeEvent.Removed s :: removedEvents rest cur
    else
      removedEvents rest cur

/-- Modelled from the spec: one Modified(old,new) event per index present in
both sets whose snapshots differ in any field. -/
def modifiedEvents : List InterfaceSnapshot → List InterfaceSnapshot → List ChangeEvent
  | [], _ => []
  | s :: rest, cur =>
    match findByIndex cur s.index with
    | some t =>
      if s = t then modifiedEvents rest cur
      else ChangeEvent.Modified s t :: modifiedEvents rest cur
    | none => modifiedEvents rest cur

/-- Modelled from the spec: one Added event per index present only in the
new set. -/
def addedEvents : List InterfaceSnapshot → List InterfaceSnapshot → List ChangeEvent
  | _, [] => []
  | old, t :: rest =>
    if (findByIndex old t.index).isNone then
      ChangeEvent.Added t :: addedEvents old rest
    else
      addedEvents old rest

/-- Modelled from the spec: the events of one watch-loop tick, in delivery
order — Removed events, then Modified events, then Added events, then any
PathChanged event produced by the synthetic default-route signal. -/
def diffEvents (old cur : List InterfaceSnapshot) (pathChange : Option String) :
    List ChangeEvent :=
  removedEvents old cur ++ modifiedEvents old cur ++ addedEvents old cur ++
    (pathChange.map ChangeEvent.PathChanged).toList

/-- The interface index an event is keyed on (`none` for PathChanged). -/
def eventIndex : ChangeEvent → Option Nat
  | .Added t => some t.index
  | .Removed s => some s.index
  | .Modified s _ => some s.index
  | .PathChanged _ => none

/-- The events of a tick that concern a given interface index. -/
def eventsForIndex (evs : List ChangeEvent) (i : Nat) : List ChangeEvent :=
  evs.filter (fun e => eventIndex e == some i)

/-- Delivery rank of an event kind: Removed before Modified before Added
before PathChanged. -/
def deliveryRank : ChangeEvent → Nat
  | .Removed _ => 0
  | .Modified _ _ => 1
  | .Added _ => 2
  | .PathChanged _ => 3

/-! ### Lemmas about `findByIndex` and index-keyed filtering -/

theorem findByIndex_eq_none {l : List InterfaceSnapshot} {i : Nat} :
    findByIndex l i = none ↔ ∀ s ∈ l, s.index ≠ i := by
  simp [findByIndex, List.find?_eq_none]

theorem findByIndex_some_mem {l : List InterfaceSnapshot} {i : Nat}
    {s : InterfaceSnapshot} (h : findByIndex l i = some s) :
    s ∈ l ∧ s.index = i := by
  refine ⟨List.mem_of_find?_eq_some h, ?_⟩
  have := List.find?_some h
  simpa using this

theorem findByIndex_of_mem {l : List InterfaceSnapshot} {s : InterfaceSnapshot}
    (hnd : (l.map (fun x => x.index)).Nodup) (hs : s ∈ l) :
    findByIndex l s.index = some s := by
  induction l with
  | nil => cases hs
  | cons a rest ih =>
    simp only [List.map_cons, List.nodup_cons] at hnd
    rcases List.mem_cons.mp hs with h | h
    · subst h
      simp [findByIndex]
    · by_cases hia : a.index = s.index
      · exact absurd (hia ▸ List.mem_map_of_mem (fun x => x.index) h) hnd.1
      · have hrec : findByIndex rest s.index = some s := ih hnd.2 h
        rw [findByIndex, List.find?_cons_of_neg _ (by simpa using hia)]
        exact hrec

theorem filter_index_of_find_none {l : List InterfaceSnapshot} {i : Nat}
    (h : findByIndex l i = none) :
    l.filter (fun x => x.index == i) = [] := by
  rw [List.filter_eq_nil_iff]
  intro x hx
  simpa using findByIndex_eq_none.mp h x hx

theorem filter_index_of_find_some {l : List InterfaceSnapshot} {i : Nat}
    {s : InterfaceSnapshot} (hnd : (l.map (fun x => x.index)).Nodup)
    (h : findByIndex l i = some s) :
    l.filter (fun x => x.index == i) = [s] := by
  induction l with
  | nil => simp [findByIndex] at h
  | cons a rest ih =>
    simp only [List.map_cons, List.nodup_cons] at hnd
    by_cases hia : a.index = i
    · have ha : a = s := by
        simpa [findByIndex, List.find?, hia] using h
      subst ha
      have hrest : rest.filter (fun x => x.index == i) = [] := by
        rw [List.filter_eq_nil_iff]
        intro x hx
        intro hxi
        exact hnd.1 (by
          have : x.index = a.index := by
            have := of_decide_eq_true hxi
            simp at this
            omega
          exact this ▸ List.mem_map_of_mem (fun y => y.index) hx)
      simp [List.filter_cons, hia, hrest]
    · have h' : findByIndex rest i = some s := by
        rw [findByIndex] at h ⊢
        rwa [List.find?_cons_of_neg _ (by simpa using hia)] at h
      simpa [List.filter_cons, hia] using ih hnd.2 h'

/-! ### Restriction of each diff component to a fixed interface index -/

theorem eventsForIndex_nil (i : Nat) : eventsForIndex [] i = [] := rfl

theorem eventsForIndex_cons (e : ChangeEvent) (evs : List ChangeEvent) (i : Nat) :
    eventsForIndex (e :: evs) i
      = if eventIndex e = some i then e :: eventsForIndex evs i
        else eventsForIndex evs i := by
  simp only [eventsForIndex, List.filter_cons, beq_iff_eq]

theorem eventsForIndex_append (l l' : List ChangeEvent) (i : Nat) :
    eventsForIndex (l ++ l') i = eventsForIndex l i ++ eventsForIndex l' i := by
  simp [eventsForIndex, List.filter_append]

theorem eventsForIndex_removed (old cur : List InterfaceSnapshot) (i : Nat) :
    eventsForIndex (removedEvents old cur) i
      = removedEvents (old.filter (fun s => s.index == i)) cur := by
  induction old with
  | nil => simp [removedEvents, eventsForIndex_nil]
  | cons s rest ih =>
    by_cases hi : s.index = i
    · subst hi
      by_cases h : (findByIndex cur s.index).isNone <;>
        simp [removedEvents, List.filter_cons, h, eventsForIndex_cons, eventIndex, ih]
    · by_cases h : (findByIndex cur s.index).isNone <;>
        simp [removedEvents, List.filter_cons, h, hi, eventsForIndex_cons, eventIndex, ih]

theorem eventsForIndex_modified (old cur : List InterfaceSnapshot) (i : Nat) :
    eventsForIndex (modifiedEvents old cur) i
      = modifiedEvents (old.filter (fun s => s.index == i)) cur := by
  induction old with
  | nil => simp [modifiedEvents, eventsForIndex_nil]
  | cons s rest ih =>
    by_cases hi : s.index = i
    · subst hi
      rcases hf : findByIndex cur s.index with _ | t
      · simp [modifiedEvents, List.filter_cons, hf, eventsForIndex_cons, eventIndex, ih]
      · by_cases hst : s = t
        · subst hst
          simp [modifiedEvents, List.filter_cons, hf, eventsForIndex_cons, eventIndex, ih]
        · simp [modifiedEvents, List.filter_cons, hf, hst, eventsForIndex_cons,
            eventIndex, ih]
    · rcases hf : findByIndex cur s.index with _ | t
      · simp [modifiedEvents, List.filter_cons, hf, hi, eventsForIndex_cons, eventIndex, ih]
      · by_cases hst : s = t
        · subst hst
          simp [modifiedEvents, List.filter_cons, hf, hi, eventsForIndex_cons,
            eventIndex, ih]
        · simp [modifiedEvents, List.filter_cons, hf, hi, hst, eventsForIndex_cons,
            eventIndex, ih]

theorem eventsForIndex_added (old cur : List InterfaceSnapshot) (i : Nat) :
    eventsForIndex (addedEvents old cur) i
      = addedEvents old (cur.filter (fun t => t.index == i)) := by
  induction cur with
  | nil => simp [addedEvents, eventsForIndex_nil]
  | cons t rest ih =>
    by_cases hi : t.index = i
    · subst hi
      by_cases h : (findByIndex old t.index).isNone <;>
        simp [addedEvents, List.filter_cons, h, eventsForIndex_cons, eventIndex, ih]
    · by_cases h : (findByIndex old t.index).isNone <;>
        simp [addedEvents, List.filter_cons, h, hi, eventsForIndex_cons, eventIndex, ih]

theorem eventsForIndex_path (p : Option String) (i : Nat) :
    eventsForIndex ((p.map ChangeEvent.PathChanged).toList) i = [] := by
  cases p <;> simp [eventsForIndex, eventIndex]

theorem eventsForIndex_diff (old cur : List InterfaceSnapshot) (p : Option String)
    (i : Nat) :
    eventsForIndex (diffEvents old cur p) i
      = removedEvents (old.filter (fun s => s.index == i)) cur ++
        modifiedEvents (old.filter (fun s => s.index == i)) cur ++
        addedEvents old (cur.filter (fun t => t.index == i)) := by
  simp [diffEvents, eventsForIndex_append, eventsForIndex_removed,
    eventsForIndex_modified, eventsForIndex_added, eventsForIndex_path]

/-- Claim C1: The watch-loop tick's diff is a partition of the affected
indices: every index present in exactly one of the old and new snapshot sets
produces exactly one Removed (only-old) or Added (only-new) event, every
index present in both sets whose snapshots differ in any field produces
exactly one Modified(old,new) event, an index present in both with equal
snapshots produces no event, and no interface index produces more than one
event in a single tick. -/
theorem diff_tick_partition (old cur : List InterfaceSnapshot) (p : Option String)
    (hold : (old.map (fun s => s.index)).Nodup)
    (hcur : (cur.map (fun s => s.index)).Nodup) :
    (∀ s ∈ old, findByIndex cur s.index = none →
      eventsForIndex (diffEvents old cur p) s.index = [ChangeEvent.Removed s]) ∧
    (∀ t ∈ cur, findByIndex old t.index = none →
      eventsForIndex (diffEvents old cur p) t.index = [ChangeEvent.Added t]) ∧
    (∀ s ∈ old, ∀ t, findByIndex cur s.index = some t → s ≠ t →
      eventsForIndex (diffEvents old cur p) s.index = [ChangeEvent.Modified s t]) ∧
    (∀ s ∈ old, ∀ t, findByIndex cur s.index = some t → s = t →
      eventsForIndex (diffEvents old cur p) s.index = []) ∧
    (∀ i, (eventsForIndex (diffEvents old cur p) i).length ≤ 1) := by
  refine ⟨?_, ?_, ?_, ?_, ?_⟩
  · intro s hs hf
    have hfo : findByIndex old s.index = some s := findByIndex_of_mem hold hs
    have h1 := filter_index_of_find_some hold hfo
    have h2 := filter_index_of_find_none hf
    rw [eventsForIndex_diff, h1, h2]
    simp [removedEvents, modifiedEvents, addedEvents, hf]
  · intro t ht hf
    have hfc : findByIndex cur t.index = some t := findByIndex_of_mem hcur ht
    have h1 := filter_index_of_find_none hf
    have h2 := filter_index_of_find_some hcur hfc
    rw [eventsForIndex_diff, h1, h2]
    simp [removedEvents, modifiedEvents, addedEvents, hf]
  · intro s hs t hf hst
    have hfo : findByIndex old s.index = some s := findByIndex_of_mem hold hs
    have hti : t.index = s.index := (findByIndex_some_mem hf).2
    have h1 := filter_index_of_find_some hold hfo
    have h2 := filter_index_of_find_some hcur hf
    rw [eventsForIndex_diff, h1, h2]
    simp [removedEvents, modifiedEvents, addedEvents, hf, hst, hti, hfo]
  · intro s hs t hf hst
    have hf' : findByIndex cur s.index = some s := by rw [hf, hst]
    have hfo : findByIndex old s.index = some s := findByIndex_of_mem hold hs
    have h1 := filter_index_of_find_some hold hfo
    have h2 := filter_index_of_find_some hcur hf'
    rw [eventsForIndex_diff, h1, h2]
    simp [removedEvents, modifiedEvents, addedEvents, hf', hfo]
  · intro i
    rw [eventsForIndex_diff]
    rcases hfo : findByIndex old i with _ | s
    · have h1 := filter_index_of_find_none hfo
      rcases hfc : findByIndex cur i with _ | t
      · have h2 := filter_index_of_find_none hfc
        simp [h1, h2, removedEvents, modifiedEvents, addedEvents]
      · have h2 := filter_index_of_find_some hcur hfc
        have hti : t.index = i := (findByIndex_some_mem hfc).2
        simp [h1, h2, removedEvents, modifiedEvents, addedEvents, hti, hfo]
    · have h1 := filter_index_of_find_some hold hfo
      have hsi : s.index = i := (findByIndex_some_mem hfo).2
      rcases hfc : findByIndex cur i with _ | t
      · have h2 := filter_index_of_find_none hfc
        simp [h1, h2, removedEvents, modifiedEvents, addedEvents, hsi, hfc]
      · have h2 := filter_index_of_find_some hcur hfc
        have hti : t.index = i := (findByIndex_some_mem hfc).2
        by_cases hst : s = t <;>
          simp [h1, h2, removedEvents, modifiedEvents, addedEvents, hsi, hti, hfc,
            hfo, hst]

/-- Witness for `diff_tick_partition` on a concrete tick: index 1 only in the
old set (one Removed), index 3 only in the new set (one Added), index 2 in
both with a changed address list (one Modified). -/
theorem diff_tick_partition_witness :
    eventsForIndex
        (diffEvents
          [⟨"en0", 1, ["10.0.0.2"], .Up, "wifi", false⟩,
           ⟨"pdp0", 2, ["10.1.1.5"], .Up, "cellular", true⟩]
          [⟨"pdp0", 2, ["10.1.1.9"], .Up, "cellular", true⟩,
           ⟨"en1", 3, [], .Down, "wired", false⟩] none) 1
      = [ChangeEvent.Removed ⟨"en0", 1, ["10.0.0.2"], .Up, "wifi", false⟩] ∧
    eventsForIndex
        (diffEvents
          [⟨"en0", 1, ["10.0.0.2"], .Up, "wifi", false⟩,
           ⟨"pdp0", 2, ["10.1.1.5"], .Up, "cellular", true⟩]
          [⟨"pdp0", 2, ["10.1.1.9"], .Up, "cellular", true⟩,
           ⟨"en1", 3, [], .Down, "wired", false⟩] none) 3
      = [ChangeEvent.Added ⟨"en1", 3, [], .Down, "wired", false⟩] ∧
    eventsForIndex
        (diffEvents
          [⟨"en0", 1, ["10.0.0.2"], .Up, "wifi", false⟩,
           ⟨"pdp0", 2, ["10.1.1.5"], .Up, "cellular", true⟩]
          [⟨"pdp0", 2, ["10.1.1.9"], .Up, "cellular", true⟩,
           ⟨"en1", 3, [], .Down, "wired", false⟩] none) 2
      = [ChangeEvent.Modified ⟨"pdp0", 2, ["10.1.1.5"], .Up, "cellular", true⟩
          ⟨"pdp0", 2, ["10.1.1.9"], .Up, "cellular", true⟩] := by
  have h := diff_tick_partition
    [⟨"en0", 1, ["10.0.0.2"], .Up, "wifi", false⟩,
     ⟨"pdp0", 2, ["10.1.1.5"], .Up, "cellular", true⟩]
    [⟨"pdp0", 2, ["10.1.1.9"], .Up, "cellular", true⟩,
     ⟨"en1", 3, [], .Down, "wired", false⟩] none (by decide) (by decide)
  refine ⟨h.1 ⟨"en0", 1, ["10.0.0.2"], .Up, "wifi", false⟩ (by decide) (by decide),
    h.2.1 ⟨"en1", 3, [], .Down, "wired", false⟩ (by decide) (by decide),
    h.2.2.1 ⟨"pdp0", 2, ["10.1.1.5"], .Up, "cellular", true⟩ (by decide)
      ⟨"pdp0", 2, ["10.1.1.9"], .Up, "cellular", true⟩ (by decide) (by decide)⟩

/-! ### Delivery order of one tick's events -/

theorem rank_of_mem_removed (old cur : List InterfaceSnapshot) :
    ∀ e ∈ removedEvents old cur, deliveryRank e = 0 := by
  induction old with
  | nil => intro e he; simp [removedEvents] at he
  | cons s rest ih =>
    intro e he
    by_cases h : (findByIndex cur s.index).isNone
    · simp only [removedEvents, h, if_true, List.mem_cons] at he
      rcases he with rfl | he
      · rfl
      · exact ih e he
    · simp only [removedEvents, h, if_false] at he
      exact ih e he

theorem rank_of_mem_modified (old cur : List InterfaceSnapshot) :
    ∀ e ∈ modifiedEvents old cur, deliveryRank e = 1 := by
  induction old with
  | nil => intro e he; simp [modifiedEvents] at he
  | cons s rest ih =>
    intro e he
    rcases hf : findByIndex cur s.index with _ | t
    · simp only [modifiedEvents, hf] at he
      exact ih e he
    · by_cases hst : s = t
      · subst hst
        simp only [modifiedEvents, hf, if_true] at he
        exact ih e he
      · simp only [modifiedEvents, hf, hst, if_false, List.mem_cons] at he
        rcases he with rfl | he
        · rfl
        · exact ih e he

theorem rank_of_mem_added (old cur : List InterfaceSnapshot) :
    ∀ e ∈ addedEvents old cur, deliveryRank e = 2 := by
  induction cur with
  | nil => intro e he; simp [addedEvents] at he
  | cons t rest ih =>
    intro e he
    by_cases h : (findByIndex old t.index).isNone
    · simp only [addedEvents, h, if_true, List.mem_cons] at he
      rcases he with rfl | he
      · rfl
      · exact ih e he
    · simp only [addedEvents, h, if_false] at he
      exact ih e he

theorem rank_of_mem_path (p : Option String) :
    ∀ e ∈ (p.map ChangeEvent.PathChanged).toList, deliveryRank e = 3 := by
  cases p <;> intro e he <;> simp at he
  subst he; rfl

/-- Claim C2: In every tick, the produced change events are delivered in this
total order: all Removed events first, then all Modified events, then all
Added events, then any PathChanged event last (delivery rank is monotone
along the tick's event list). -/
theorem diff_tick_delivery_order (old cur : List InterfaceSnapshot)
    (p : Option String) :
    (diffEvents old cur p).Pairwise (fun a b => deliveryRank a ≤ deliveryRank b) := by
  have hconst : ∀ (l : List ChangeEvent) (r : Nat),
      (∀ e ∈ l, deliveryRank e = r) →
      l.Pairwise (fun a b => deliveryRank a ≤ deliveryRank b) := by
    intro l r h
    exact List.pairwise_of_forall_mem_list (fun a ha b hb => by
      rw [h a ha, h b hb])
  have hR := hconst _ 0 (rank_of_mem_removed old cur)
  have hM := hconst _ 1 (rank_of_mem_modified old cur)
  have hA := hconst _ 2 (rank_of_mem_added old cur)
  have hP := hconst _ 3 (rank_of_mem_path p)
  rw [diffEvents]
  refine List.pairwise_append.mpr
    ⟨List.pairwise_append.mpr ⟨List.pairwise_append.mpr ⟨hR, hM, ?_⟩, hA, ?_⟩, hP, ?_⟩
  · intro a ha b hb
    rw [rank_of_mem_removed old cur a ha, rank_of_mem_modified old cur b hb]
    omega
  · intro a ha b hb
    rw [rank_of_mem_added old cur b hb]
    rcases List.mem_append.mp ha with h | h
    · rw [rank_of_mem_removed old cur a h]; omega
    · rw [rank_of_mem_modified old cur a h]; omega
  · intro a ha b hb
    rw [rank_of_mem_path p b hb]
    rcases List.mem_append.mp ha with h | h
    · rcases List.mem_append.mp h with h2 | h2
      · rw [rank_of_mem_removed old cur a h2]; omega
      · rw [rank_of_mem_modified old cur a h2]; omega
    · rw [rank_of_mem_added old cur a h]; omega

/-! ## Watcher lifecycle

Modelled from the spec: `startWatching(handle, callback)` returns a watcher
handle; `stopWatching(watcherHandle)` is idempotent, stops delivery, and no
callback is invoked after it returns.  The core implementing the watch loop
(`transport_services_path_monitor_start_watching` /
`transport_services_path_monitor_stop_watching` are only declared in the FFI
example) is not among the shipped sources, so the watcher's observable state
is modelled from the spec's words. -/

/-- Observable state of one watcher handle: whether delivery is active and the
sequence of callback invocations made so far. -/
structure WatcherState where
  active : Bool
  delivered : List ChangeEvent
deriving DecidableEq, Repr

/-- Modelled from the spec: a fresh watcher as returned by `startWatching`. -/
def startWatching : WatcherState :=
  { active := true, delivered := [] }

/-- Modelled from the spec: `stopWatching` — stops delivery; total (never
fails), idempotent. -/
def stopWatching (w : WatcherState) : WatcherState :=
  { w with active := false }

/-- Modelled from the spec: the watch loop reacting to one change — the
registered callback is invoked only while the watcher is active. -/
def deliverChange (w : WatcherState) (e : ChangeEvent) : WatcherState :=
  if w.active then { w with delivered := w.delivered ++ [e] } else w

/-- The watch loop reacting to a whole sequence of subsequent changes. -/
def deliverAll (w : WatcherState) (es : List ChangeEvent) : WatcherState :=
  es.foldl deliverChange w

theorem deliverAll_inactive (es : List ChangeEvent) :
    ∀ w : WatcherState, w.active = false → deliverAll w es = w := by
  induction es with
  | nil => intro w _; rfl
  | cons e rest ih =>
    intro w hw
    have hstep : deliverChange w e = w := by simp [deliverChange, hw]
    calc deliverAll w (e :: rest) = deliverAll (deliverChange w e) rest := rfl
      _ = deliverAll w rest := by rw [hstep]
      _ = w := ih w hw

/-- Claim C3: `stopWatching` is idempotent (a second call has no further
effect; being a total function it cannot fail), and after `stopWatching`
returns the registered callback is never invoked again for that watcher: any
sequence of subsequent changes — including one injected immediately after the
stop — leaves the record of callback invocations unchanged. -/
theorem stopWatching_idempotent_silences (w : WatcherState) :
    stopWatching (stopWatching w) = stopWatching w ∧
    (∀ e : ChangeEvent,
      (deliverChange (stopWatching w) e).delivered = w.delivered) ∧
    (∀ es : List ChangeEvent,
      (deliverAll (stopWatching w) es).delivered = w.delivered) := by
  refine ⟨rfl, ?_, ?_⟩
  · intro e
    simp [deliverChange, stopWatching]
  · intro es
    rw [deliverAll_inactive es (stopWatching w) rfl]
    rfl

/-! ## Connection establishment engine

Modelled from the spec: candidates are raced, the first completed handshake
wins, and if all candidates fail the engine reports `AllFailed` carrying
every candidate's individual failure reason; no partial or best-effort
connection is ever returned.  The engine is not among the shipped sources. -/

/-- The outcome one candidate's attempt would observe: a completed protocol
handshake, or an individual failure reason (refused, timed out, unreachable,
handshake failure). -/
inductive AttemptOutcome where
  | handshakeDone
  | failed (reason : String)
deriving DecidableEq, Repr

/-- A candidate (endpoint × protocol) pair together with the outcome its
attempt observes. -/
structure Candidate where
  address : String
  port : Nat
  protocolName : String
  outcome : AttemptOutcome
deriving DecidableEq, Repr

/-- Result of one establishment attempt: a Connection bound to the winning
candidate, or `AllFailed` with the per-candidate failure reasons. -/
inductive EstablishResult where
  | Succeeded (winner : Candidate)
  | AllFailed (reasons : List String)
deriving DecidableEq, Repr

/-- The failure reason of a candidate's attempt, when it failed. -/
def failureReason (c : Candidate) : Option String :=
  match c.outcome with
  | .handshakeDone => none
  | .failed r => some r

/-- Modelled from the spec: the establishment race — some candidate that
completes a handshake wins; if every candidate fails, the engine reports
`AllFailed` with each candidate's individual reason, in attempt order. -/
def establish (cands : List Candidate) : EstablishResult :=
  match cands.find? (fun c => (failureReason c).isNone) with
  | some w => .Succeeded w
  | none => .AllFailed (cands.filterMap failureReason)

theorem filterMap_reason_length (cands : List Candidate)
    (h : ∀ c ∈ cands, (failureReason c).isSome) :
    (cands.filterMap failureReason).length = cands.length := by
  induction cands with
  | nil => rfl
  | cons c rest ih =>
    rcases Option.isSome_iff_exists.mp (h c (List.mem_cons_self c rest)) with ⟨r, hr⟩
    have hrest := ih (fun x hx => h x (List.mem_cons_of_mem c hx))
    simp [List.filterMap_cons, hr, hrest]

/-- Claim C4: When every candidate of an establishment attempt fails, the
engine returns `AllFailed` carrying exactly one individual failure reason per
attempted candidate (the reason list has the same length as the candidate
list and contains each candidate's reason), and no Connection — partial or
best-effort — is ever returned in that case. -/
theorem establish_all_failed (cands : List Candidate)
    (h : ∀ c ∈ cands, (failureReason c).isSome) :
    establish cands = .AllFailed (cands.filterMap failureReason) ∧
    (cands.filterMap failureReason).length = cands.length ∧
    (∀ c ∈ cands, ∀ r, failureReason c = some r →
      r ∈ cands.filterMap failureReason) ∧
    (∀ w, establish cands ≠ .Succeeded w) := by
  have hfind : cands.find? (fun c => (failureReason c).isNone) = none := by
    rw [List.find?_eq_none]
    intro c hc
    simp [Option.isNone_iff_eq_none]
    exact Option.isSome_iff_ne_none.mp (h c hc)
  have heq : establish cands = .AllFailed (cands.filterMap failureReason) := by
    rw [establish, hfind]
  refine ⟨heq, filterMap_reason_length cands h, ?_, ?_⟩
  · intro c hc r hr
    exact List.mem_filterMap.mpr ⟨c, hc, hr⟩
  · intro w hw
    rw [heq] at hw
    exact EstablishResult.noConfusion hw

/-- Witness for `establish_all_failed`: two unreachable candidates yield
`AllFailed` with exactly their two failure reasons and no Connection. -/
theorem establish_all_failed_witness :
    establish [⟨"192.0.2.10", 443, "tcp", .failed "unreachable"⟩,
               ⟨"192.0.2.11", 443, "tcp", .failed "unreachable"⟩]
      = .AllFailed ["unreachable", "unreachable"] ∧
    (∀ w, establish [⟨"192.0.2.10", 443, "tcp", .failed "unreachable"⟩,
                     ⟨"192.0.2.11", 443, "tcp", .failed "unreachable"⟩]
      ≠ .Succeeded w) := by
  have h := establish_all_failed
    [⟨"192.0.2.10", 443, "tcp", .failed "unreachable"⟩,
     ⟨"192.0.2.11", 443, "tcp", .failed "unreachable"⟩] (by decide)
  exact ⟨by rw [h.1]; rfl, h.2.2.2⟩

/-! ## Endpoint resolver

Modelled from the spec: `resolve(RemoteEndpoint)` fails when hostname lookup
yields zero usable addresses, and otherwise returns the candidates
interleaved by address family (alternating, preferred family first) to
support a Happy-Eyeballs race, preserving the OS-provided preference order
within each family.  The resolver is not among the shipped sources. -/

/-- Address family of a resolved address. -/
inductive AddressFamily where
  | v4
  | v6
deriving DecidableEq, Repr

/-- The other address family. -/
def AddressFamily.other : AddressFamily → AddressFamily
  | .v4 => .v6
  | .v6 => .v4

theorem AddressFamily.other_ne (f : AddressFamily) : f.other ≠ f := by
  cases f <;> simp [AddressFamily.other]

/-- A resolved candidate pairing a concrete address family + address + port
with a usable protocol stack. -/
structure ResolvedCandidate where
  family : AddressFamily
  address : String
  port : Nat
  protocolName : String
deriving DecidableEq, Repr

/-- Alternating interleave of two lists: the first list contributes the head,
then the roles swap. -/
def interleave : List α → List α → List α
  | [], ys => ys
  | x :: xs, ys => x :: interleave ys xs
termination_by xs ys => xs.length + ys.length
decreasing_by simp; omega

/-- Modelled from the spec: the resolver's candidate ordering — the
OS-provided addresses of the preferred family and of the other family, each
kept in OS preference order, interleaved alternately starting with the
preferred family. -/
def resolveOrder (preferred : AddressFamily) (lookup : List ResolvedCandidate) :
    List ResolvedCandidate :=
  interleave (lookup.filter (fun c => c.family == preferred))
    (lookup.filter (fun c => c.family == preferred.other))

/-- Modelled from the spec: `resolve` — `ResolutionError` when the lookup
yields zero usable addresses, else the interleaved candidate sequence. -/
def resolve (preferred : AddressFamily) (lookup : List ResolvedCandidate) :
    Except String (List ResolvedCandidate) :=
  if lookup.isEmpty then
    Except.error "ResolutionError: hostname lookup yielded zero usable addresses"
  else
    Except.ok (resolveOrder preferred lookup)

theorem interleave_filter {α : Type} (p : α → Bool) :
    ∀ (n : Nat) (as bs : List α), as.length + bs.length ≤ n →
      (∀ a ∈ as, p a = true) → (∀ b ∈ bs, p b = false) →
      (interleave as bs).filter p = as ∧ (interleave bs as).filter p = as := by
  intro n
  induction n with
  | zero =>
    intro as bs hlen ha hb
    cases as with
    | nil =>
      cases bs with
      | nil => simp [interleave]
      | cons b bs' => simp at hlen
    | cons a as' => simp at hlen
  | succ n ih =>
    intro as bs hlen ha hb
    constructor
    · cases as with
      | nil =>
        rw [interleave]
        exact List.filter_eq_nil_iff.mpr (fun b hb' => by simp [hb b hb'])
      | cons a as' =>
        rw [interleave, List.filter_cons]
        have hrec : (interleave bs as').filter p = as' := by
          refine (ih as' bs ?_ (fun x hx => ha x (List.mem_cons_of_mem a hx)) hb).2
          simp at hlen ⊢
          omega
        simp [ha a (List.mem_cons_self a as'), hrec]
    · cases bs with
      | nil =>
        rw [interleave]
        exact List.filter_eq_self.mpr (fun x hx => ha x hx)
      | cons b bs' =>
        rw [interleave, List.filter_cons]
        have hrec : (interleave as bs').filter p = as := by
          refine (ih as bs' ?_ ha (fun x hx => hb x (List.mem_cons_of_mem b hx))).1
          simp at hlen ⊢
          omega
        simp [hb b (List.mem_cons_self b bs'), hrec]

theorem interleave_getElem {α : Type} (k : Nat) :
    ∀ (as bs : List α),
      (k < as.length → k ≤ bs.length → (interleave as bs)[2 * k]? = as[k]?) ∧
      (k < bs.length → k < as.length → (interleave as bs)[2 * k + 1]? = bs[k]?) := by
  induction k with
  | zero =>
    intro as bs
    constructor
    · intro h1 _
      cases as with
      | nil => simp at h1
      | cons a as' => rw [interleave]; simp
    · intro h1 h2
      cases as with
      | nil => simp at h2
      | cons a as' =>
        cases bs with
        | nil => simp at h1
        | cons b bs' =>
          rw [interleave, interleave]
          simp
  | succ k ih =>
    intro as bs
    constructor
    · intro h1 h2
      cases as with
      | nil => simp at h1
      | cons a as' =>
        cases bs with
        | nil => simp at h2
        | cons b bs' =>
          rw [interleave]
          have e1 : 2 * (k + 1) = 2 * k + 1 + 1 := by ring
          rw [e1, List.getElem?_cons_succ, List.getElem?_cons_succ]
          refine (ih (b :: bs') as').2 ?_ ?_
          · simpa using h1
          · simp at h2 ⊢
            omega
    · intro h1 h2
      cases as with
      | nil => simp at h2
      | cons a as' =>
        cases bs with
        | nil => simp at h1
        | cons b bs' =>
          rw [interleave, List.getElem?_cons_succ]
          have hi : interleave (b :: bs') as' = b :: interleave as' bs' := by
            rw [interleave]
          rw [hi]
          have e1 : 2 * (k + 1) = 2 * k + 1 + 1 := by ring
          rw [e1, List.getElem?_cons_succ, List.getElem?_cons_succ]
          refine (ih as' bs').2 ?_ ?_
          · simp at h1 ⊢
            omega
          · simp at h2 ⊢
            omega

/-- Claim C5: For a successful `resolve` whose lookup yields addresses of both
address families, the returned candidate sequence interleaves the families
alternately (position `2k` holds the `k`-th preferred-family address,
position `2k+1` the `k`-th other-family address) and, within each family,
the OS-provided preference order is preserved (filtering the result by a
family gives exactly the lookup's addresses of that family, in order). -/
theorem resolve_interleaves (preferred : AddressFamily)
    (lookup : List ResolvedCandidate)
    (hne : lookup ≠ [])
    (_hmulti : (∃ c ∈ lookup, c.family = preferred) ∧
      ∃ c ∈ lookup, c.family = preferred.other) :
    resolve preferred lookup = Except.ok (resolveOrder preferred lookup) ∧
    (resolveOrder preferred lookup).filter (fun c => c.family == preferred)
      = lookup.filter (fun c => c.family == preferred) ∧
    (resolveOrder preferred lookup).filter (fun c => c.family == preferred.other)
      = lookup.filter (fun c => c.family == preferred.other) ∧
    (∀ k, k < (lookup.filter (fun c => c.family == preferred)).length →
      k ≤ (lookup.filter (fun c => c.family == preferred.other)).length →
      (resolveOrder preferred lookup)[2 * k]?
        = (lookup.filter (fun c => c.family == preferred))[k]?) ∧
    (∀ k, k < (lookup.filter (fun c => c.family == preferred.other)).length →
      k < (lookup.filter (fun c => c.family == preferred)).length →
      (resolveOrder preferred lookup)[2 * k + 1]?
        = (lookup.filter (fun c => c.family == preferred.other))[k]?) := by
  have hA : ∀ a ∈ lookup.filter (fun c => c.family == preferred),
      (fun c => c.family == preferred) a = true := by
    intro a ha
    exact (List.mem_filter.mp ha).2
  have hB : ∀ b ∈ lookup.filter (fun c => c.family == preferred.other),
      (fun c => c.family == preferred) b = false := by
    intro b hb
    have hb2 := (List.mem_filter.mp hb).2
    simp only [beq_iff_eq] at hb2 ⊢
    rw [hb2]
    simpa using AddressFamily.other_ne preferred
  have hA2 : ∀ a ∈ lookup.filter (fun c => c.family == preferred.other),
      (fun c => c.family == preferred.other) a = true := by
    intro a ha
    exact (List.mem_filter.mp ha).2
  have hB2 : ∀ b ∈ lookup.filter (fun c => c.family == preferred),
      (fun c => c.family == preferred.other) b = false := by
    intro b hb
    have hb2 := (List.mem_filter.mp hb).2
    simp only [beq_iff_eq] at hb2
    simp only [beq_eq_false_iff_ne]
    rw [hb2]
    exact fun hcontra => AddressFamily.other_ne preferred hcontra.symm
  refine ⟨?_, ?_, ?_, ?_, ?_⟩
  · rw [resolve, if_neg (by simpa using hne)]
  · exact (interleave_filter _ _ _ _ (le_refl _) hA hB).1
  · exact (interleave_filter _ _ _ _ (le_refl _) hA2 hB2).2
  · intro k h1 h2
    exact (interleave_getElem k _ _).1 h1 h2
  · intro k h1 h2
    exact (interleave_getElem k _ _).2 h1 h2

/-- Witness for `resolve_interleaves` on a concrete two-family lookup:
the resolve succeeds and position 1 of the result is the first address of
the non-preferred family. -/
theorem resolve_interleaves_witness :
    resolve AddressFamily.v4
        [⟨AddressFamily.v4, "192.0.2.1", 443, "tcp"⟩,
         ⟨AddressFamily.v4, "192.0.2.2", 443, "tcp"⟩,
         ⟨AddressFamily.v6, "2001:db8::1", 443, "tcp"⟩]
      = Except.ok (resolveOrder AddressFamily.v4
        [⟨AddressFamily.v4, "192.0.2.1", 443, "tcp"⟩,
         ⟨AddressFamily.v4, "192.0.2.2", 443, "tcp"⟩,
         ⟨AddressFamily.v6, "2001:db8::1", 443, "tcp"⟩]) ∧
    (resolveOrder AddressFamily.v4
        [⟨AddressFamily.v4, "192.0.2.1", 443, "tcp"⟩,
         ⟨AddressFamily.v4, "192.0.2.2", 443, "tcp"⟩,
         ⟨AddressFamily.v6, "2001:db8::1", 443, "tcp"⟩])[1]?
      = some ⟨AddressFamily.v6, "2001:db8::1", 443, "tcp"⟩ := by
  have h := resolve_interleaves AddressFamily.v4
    [⟨AddressFamily.v4, "192.0.2.1", 443, "tcp"⟩,
     ⟨AddressFamily.v4, "192.0.2.2", 443, "tcp"⟩,
     ⟨AddressFamily.v6, "2001:db8::1", 443, "tcp"⟩]
    (by decide) (by decide)
  refine ⟨h.1, ?_⟩
  have h5 := h.2.2.2.2 0 (by decide) (by decide)
  simpa using h5

/-! ## Connection object

Modelled from the spec: a Connection's state machine and its `receive` /
`close` operations.  `test.c` calls `taps_connection_receive(conn, buffer,
capacity)` (looping while the result is positive, then writing a NUL
terminator at the returned count) and `taps_connection_close(conn)`, but the
implementation behind these entry points is not among the shipped sources,
so their behaviour is modelled from the spec's words:
`receive(maxBytes)` returns 0 bytes to signal orderly remote close, a
negative/error value to signal abnormal failure, else the bytes read;
`close()` fails with `CloseError{AlreadyClosed}` on an already-closed
Connection and is otherwise safe to call once. -/

/-- Connection lifecycle states. -/
inductive ConnState where
  | Establishing
  | Established
  | Closing
  | Closed
  | Failed
deriving DecidableEq, Repr

/-- What the next `receive` on the transport session observes: buffered
payload bytes, an orderly close by the remote peer, or an abnormal
transport-level failure. -/
inductive RemoteCondition where
  | data (bytes : List Nat)
  | orderlyClose
  | ioError
deriving DecidableEq, Repr

/-- A Connection: its lifecycle state plus what its transport session will
deliver next. -/
structure Connection where
  state : ConnState
  remote : RemoteCondition
deriving DecidableEq, Repr

/-- Close-time error taxonomy. -/
inductive CloseError where
  | AlreadyClosed
deriving DecidableEq, Repr

/-- Modelled from the spec: `receive(conn, buffer, capacity)` — on an
established Connection it returns 0 when the remote performed an orderly
close, a negative status on abnormal failure, else the count of bytes read
(the buffered bytes truncated to the buffer capacity); on a
non-established Connection it is an error.  Returns the status together
with the bytes written into the caller's buffer. -/
def taps_connection_receive (c : Connection) (capacity : Nat) :
    Int × List Nat :=
  match c.state with
  | .Established =>
    match c.remote with
    | .orderlyClose => (0, [])
    | .ioError => (-1, [])
    | .data bytes => (((bytes.take capacity).length : Int), bytes.take capacity)
  | _ => (-1, [])

/-- Modelled from the spec: `close(conn)` — fails with
`CloseError{AlreadyClosed}` and leaves the Connection untouched when it is
already Closed; otherwise transitions the Connection to Closed (the
Closing phase is collapsed here: resources are released synchronously). -/
def taps_connection_close (c : Connection) : Option CloseError × Connection :=
  match c.state with
  | .Closed => (some CloseError.AlreadyClosed, c)
  | _ => (none, { c with state := ConnState.Closed })

/-- Claim C6: On an established Connection whose pending payloads are
non-empty, with a positive buffer capacity, `receive` returns 0 exactly when
the remote peer performed an orderly close; an abnormal transport failure
yields a negative status; otherwise `receive` returns the number of bytes
read into the buffer. -/
theorem receive_orderly_close_semantics (c : Connection) (capacity : Nat)
    (hest : c.state = ConnState.Established)
    (hwf : ∀ bytes, c.remote = RemoteCondition.data bytes → bytes ≠ [])
    (hcap : 0 < capacity) :
    ((taps_connection_receive c capacity).1 = 0 ↔
      c.remote = RemoteCondition.orderlyClose) ∧
    (c.remote = RemoteCondition.ioError →
      (taps_connection_receive c capacity).1 < 0) ∧
    (∀ bytes, c.remote = RemoteCondition.data bytes →
      (taps_connection_receive c capacity).1
        = ((taps_connection_receive c capacity).2.length : Int)) := by
  refine ⟨⟨?_, ?_⟩, ?_, ?_⟩
  · intro h0
    rcases hr : c.remote with bytes | _ | _
    · have hne := hwf bytes hr
      rw [taps_connection_receive, hest] at h0
      simp only [hr] at h0
      have hlen : 0 < (bytes.take capacity).length := by
        rw [List.length_take]
        cases bytes with
        | nil => exact absurd rfl hne
        | cons x xs => simp; omega
      omega
    · rfl
    · rw [taps_connection_receive, hest] at h0
      simp [hr] at h0
  · intro hr
    rw [taps_connection_receive, hest]
    simp [hr]
  · intro hr
    rw [taps_connection_receive, hest]
    simp [hr]
  · intro bytes hr
    rw [taps_connection_receive, hest]
    simp [hr]

/-- Witness for `receive_orderly_close_semantics`: an established Connection
whose remote performed an orderly close receives 0 bytes. -/
theorem receive_orderly_close_semantics_witness :
    (taps_connection_receive
        ⟨ConnState.Established, RemoteCondition.orderlyClose⟩ 4095).1 = 0 := by
  have h := receive_orderly_close_semantics
    ⟨ConnState.Established, RemoteCondition.orderlyClose⟩ 4095 rfl
    (fun bytes hb => by simp at hb) (by decide)
  exact h.1.mpr rfl

/-- Claim C7: `close` on a Connection already in the Closed state fails with
`CloseError{AlreadyClosed}` and returns the Connection unchanged (no
corruption), while a single `close` on an established Connection succeeds;
the close after that first close again fails with `AlreadyClosed`. -/
theorem close_already_closed (c : Connection) :
    (c.state = ConnState.Closed →
      taps_connection_close c = (some CloseError.AlreadyClosed, c)) ∧
    (c.state = ConnState.Established →
      (taps_connection_close c).1 = none ∧
      (taps_connection_close ((taps_connection_close c).2)).1
        = some CloseError.AlreadyClosed) := by
  constructor
  · intro h
    rw [taps_connection_close, h]
  · intro h
    rw [taps_connection_close, h]
    constructor
    · rfl
    · rfl

/-- Witness for `close_already_closed` on concrete Connections: a second
`close` fails with `AlreadyClosed` and does not alter the Connection, and a
first `close` on an established Connection succeeds. -/
theorem close_already_closed_witness :
    taps_connection_close ⟨ConnState.Closed, RemoteCondition.orderlyClose⟩
      = (some CloseError.AlreadyClosed,
         ⟨ConnState.Closed, RemoteCondition.orderlyClose⟩) ∧
    (taps_connection_close
      ⟨ConnState.Established, RemoteCondition.orderlyClose⟩).1 = none := by
  refine ⟨(close_already_closed
    ⟨ConnState.Closed, RemoteCondition.orderlyClose⟩).1 rfl, ?_⟩
  exact ((close_already_closed
    ⟨ConnState.Established, RemoteCondition.orderlyClose⟩).2 rfl).1

/-- Claim C10: A successful (non-negative) `receive` never reports more bytes
than the caller-supplied capacity, so a caller passing `sizeof(buffer) - 1`
as the capacity — as `test.c` does — can always write a terminator at the
returned count without overflowing its buffer. -/
theorem receive_at_most_capacity (c : Connection) (capacity : Nat)
    (hok : 0 ≤ (taps_connection_receive c capacity).1) :
    (taps_connection_receive c capacity).1 ≤ (capacity : Int) := by
  rcases c with ⟨st, remote⟩
  cases st with
  | Established =>
    rcases remote with bytes | _ | _ <;>
      simp [taps_connection_receive] at hok ⊢
  | Establishing => simp [taps_connection_receive] at hok
  | Closing => simp [taps_connection_receive] at hok
  | Closed => simp [taps_connection_receive] at hok
  | Failed => simp [taps_connection_receive] at hok

/-- Witness for `receive_at_most_capacity`: receiving 6 pending bytes with
capacity 4 reports at most 4 bytes. -/
theorem receive_at_most_capacity_witness :
    (taps_connection_receive
        ⟨ConnState.Established, RemoteCondition.data [72, 84, 84, 80, 47, 49]⟩
        4).1 ≤ (4 : Int) :=
  receive_at_most_capacity
    ⟨ConnState.Established, RemoteCondition.data [72, 84, 84, 80, 47, 49]⟩
    4 (by decide)

/-! ## Binary/ABI surface

Modelled from the spec: all fallible ABI entry points return a sentinel
failure value (a null handle for handle-returning calls, a negative count
for count-returning calls) and set the process-wide last-error string
retrievable via `transport_services_get_last_error`; no entry point may
throw or unwind across the boundary (here every entry point is a total Lean
function, so each call returns a value).  The FFI example only declares
these entry points; the implementation behind them is not among the shipped
sources. -/

/-- The host environment visible to the ABI: whether the OS
interface-enumeration mechanism can be opened, and the snapshots it would
report. -/
structure AbiEnv where
  osAvailable : Bool
  osSnapshots : List InterfaceSnapshot

/-- Process-wide ABI state: the last-error string set by failing entry
points, the next fresh handle value, and the live monitor handles. -/
structure AbiState where
  lastError : Option String
  nextHandle : Nat
  monitors : List Nat
deriving DecidableEq, Repr

/-- Modelled from the spec: `transport_services_get_last_error` — the
process-wide last-error string. -/
def transport_services_get_last_error (st : AbiState) : Option String :=
  st.lastError

/-- Modelled from the spec: `transport_services_path_monitor_create` — a
fresh (non-null) monitor handle, or on failure the null-handle sentinel with
the last-error string set (`InitError` when the OS interface-enumeration
mechanism cannot be opened). -/
def transport_services_path_monitor_create (env : AbiEnv) (st : AbiState) :
    Option Nat × AbiState :=
  if env.osAvailable = true then
    (some st.nextHandle,
      { st with nextHandle := st.nextHandle + 1,
                monitors := st.nextHandle :: st.monitors })
  else
    (none,
     { st with lastError := some "InitError: interface enumeration unavailable" })

/-- Modelled from the spec: `transport_services_path_monitor_list_interfaces`
— the snapshot count (non-negative) on success; a negative status with the
last-error string set when the handle is not a live monitor or the OS
enumeration fails. -/
def transport_services_path_monitor_list_interfaces (env : AbiEnv)
    (st : AbiState) (handle : Nat) : Int × AbiState :=
  if handle ∈ st.monitors ∧ env.osAvailable = true then
    ((env.osSnapshots.length : Int), st)
  else
    (-1, { st with lastError := some "ListError: invalid handle or enumeration failed" })

/-- Claim C8: Fallible ABI entry points signal failure by a sentinel value and
set the process-wide last-error string: the handle-returning
`path_monitor_create` returns the null handle exactly when the OS mechanism
is unavailable, and then the last-error string is set and retrievable via
`get_last_error`; the count-returning `list_interfaces` returns a negative
status on failure with the last-error string likewise set, and a
non-negative count on success.  Every modelled entry point is a total
function (no call throws or unwinds). -/
theorem abi_failure_sentinel (env : AbiEnv) (st : AbiState) (handle : Nat) :
    ((transport_services_path_monitor_create env st).1 = none ↔
      env.osAvailable = false) ∧
    (env.osAvailable = false →
      (transport_services_get_last_error
        (transport_services_path_monitor_create env st).2).isSome) ∧
    (¬(handle ∈ st.monitors ∧ env.osAvailable = true) →
      (transport_services_path_monitor_list_interfaces env st handle).1 < 0 ∧
      (transport_services_get_last_error
        (transport_services_path_monitor_list_interfaces env st handle).2).isSome) ∧
    (handle ∈ st.monitors ∧ env.osAvailable = true →
      0 ≤ (transport_services_path_monitor_list_interfaces env st handle).1) := by
  refine ⟨⟨?_, ?_⟩, ?_, ?_, ?_⟩
  · intro h
    by_cases hos : env.osAvailable = true
    · rw [transport_services_path_monitor_create, if_pos hos] at h
      exact absurd h (by simp)
    · simpa using hos
  · intro h
    rw [transport_services_path_monitor_create, if_neg (by simp [h])]
  · intro h
    rw [transport_services_path_monitor_create, if_neg (by simp [h])]
    rfl
  · intro h
    rw [transport_services_path_monitor_list_interfaces, if_neg h]
    exact ⟨by norm_num, rfl⟩
  · intro h
    rw [transport_services_path_monitor_list_interfaces, if_pos h]
    exact Int.natCast_nonneg _

/-- Witness for `abi_failure_sentinel`: with the OS enumeration mechanism
unavailable, `path_monitor_create` returns the null handle and the last-error
string is set; `list_interfaces` on an unknown handle returns a negative
status with the last-error string set. -/
theorem abi_failure_sentinel_witness :
    (transport_services_path_monitor_create ⟨false, []⟩ ⟨none, 1, []⟩).1
      = none ∧
    (transport_services_get_last_error
      (transport_services_path_monitor_create ⟨false, []⟩ ⟨none, 1, []⟩).2).isSome ∧
    (transport_services_path_monitor_list_interfaces ⟨false, []⟩ ⟨none, 1, []⟩ 7).1
      < 0 := by
  have h := abi_failure_sentinel ⟨false, []⟩ ⟨none, 1, []⟩ 7
  exact ⟨h.1.mpr rfl, h.2.1 rfl, (h.2.2.1 (by simp)).1⟩

/-! ## Interface record ownership

Modelled from the spec: interface listing returns an owned array of owned
interface records plus a count, and the paired
`freeInterfaces(array, count)` must reclaim exactly what the listing
allocated — no more, no less — and be a safe no-op on a null array or a
zero count.  The allocator behind the FFI example's declarations is not
among the shipped sources, so allocation is modelled as a set of live
record identities. -/

/-- The allocation-relevant state of the core: identities of the records
currently allocated to consumers, and the next fresh identity. -/
structure AllocState where
  allocated : List Nat
  nextId : Nat
deriving DecidableEq, Repr

/-- Modelled from the spec: interface listing allocates one owned record per
reported snapshot and hands the consumer the owned array of record
identities together with their count. -/
def listInterfacesAlloc (st : AllocState) (n : Nat) : List Nat × AllocState :=
  (List.range' st.nextId n,
   { allocated := st.allocated ++ List.range' st.nextId n,
     nextId := st.nextId + n })

/-- Modelled from the spec:
`transport_services_path_monitor_free_interfaces(array, count)` — reclaims
the first `count` records of the given array; a null array is a safe no-op
(and so is a zero count). -/
def transport_services_path_monitor_free_interfaces (st : AllocState)
    (array : Option (List Nat)) (count : Nat) : AllocState :=
  match array with
  | none => st
  | some ids =>
    { st with allocated := st.allocated.filter (fun a => decide (a ∉ ids.take count)) }

/-- Claim C9: `freeInterfaces(array, count)` on the array and count returned
by the corresponding interface-listing call reclaims exactly the records
that call allocated — afterwards the allocated set is exactly what it was
before the listing, so nothing less (all new records are gone) and nothing
more (all previously allocated records survive); and calling it with a null
array or a zero count is a safe no-op. -/
theorem free_interfaces_exact (st : AllocState) (n : Nat)
    (hwf : ∀ a ∈ st.allocated, a < st.nextId) :
    (transport_services_path_monitor_free_interfaces
        (listInterfacesAlloc st n).2 (some (listInterfacesAlloc st n).1)
        n).allocated
      = st.allocated ∧
    (∀ c : Nat,
      transport_services_path_monitor_free_interfaces st none c = st) ∧
    (∀ ids : List Nat,
      transport_services_path_monitor_free_interfaces st (some ids) 0 = st) := by
  refine ⟨?_, fun c => rfl, ?_⟩
  · have hids : (List.range' st.nextId n).take n = List.range' st.nextId n :=
      List.take_of_length_le (le_of_eq (List.length_range' _ _ _))
    rw [transport_services_path_monitor_free_interfaces]
    simp only [listInterfacesAlloc, hids, List.filter_append]
    have hold : st.allocated.filter
        (fun a => decide (a ∉ List.range' st.nextId n)) = st.allocated := by
      rw [List.filter_eq_self]
      intro a ha
      have := hwf a ha
      simp only [decide_eq_true_eq, List.mem_range'_1]
      omega
    have hnew : (List.range' st.nextId n).filter
        (fun a => decide (a ∉ List.range' st.nextId n)) = [] := by
      rw [List.filter_eq_nil_iff]
      intro a ha
      simp only [decide_eq_true_eq, Decidable.not_not]
      exact ha
    rw [hold, hnew, List.append_nil]
  · intro ids
    rw [transport_services_path_monitor_free_interfaces]
    simp [List.filter_eq_self]

/-- Witness for `free_interfaces_exact`: listing two records on a heap with
one live record and freeing the returned array restores the heap exactly;
null-array and zero-count calls are no-ops. -/
theorem free_interfaces_exact_witness :
    (transport_services_path_monitor_free_interfaces
        (listInterfacesAlloc ⟨[0], 1⟩ 2).2 (some (listInterfacesAlloc ⟨[0], 1⟩ 2).1)
        2).allocated = [0] ∧
    transport_services_path_monitor_free_interfaces ⟨[0], 1⟩ none 2 = ⟨[0], 1⟩ ∧
    transport_services_path_monitor_free_interfaces ⟨[0], 1⟩ (some [1, 2]) 0
      = ⟨[0], 1⟩ := by
  have h := free_interfaces_exact ⟨[0], 1⟩ 2 (by decide)
  exact ⟨h.1, h.2.1 2, h.2.2 [1, 2]⟩

end Taps
